import Mathlib

/-!
Verification of the batch image conversion and client-side ZIP encoding core
of the media-toolkit repository (src/static/js/image.js).

Bytes are modelled as `List Nat`, each element a value in `[0, 256)`.
`DataView.setUint16 / setUint32` with little-endian flag are modelled by
`u16le / u32le`, which write the value modulo 2^16 / 2^32 as JavaScript does
(the ToUint16 / ToUint32 coercions).
-/

namespace MediaToolkit

/-- Little-endian 16-bit write, as `DataView.setUint16 (..., true)`:
the value is reduced modulo 2^16. -/
def u16le (v : Nat) : List Nat := [v % 256, v / 256 % 256]

/-- Little-endian 32-bit write, as `DataView.setUint32 (..., true)`:
the value is reduced modulo 2^32. -/
def u32le (v : Nat) : List Nat :=
  [v % 256, v / 256 % 256, v / 65536 % 256, v / 16777216 % 256]

/-- Read back a little-endian 16-bit field at byte position `i`. -/
def readU16 (b : List Nat) (i : Nat) : Nat :=
  b.getD i 0 + 256 * b.getD (i + 1) 0

/-- Read back a little-endian 32-bit field at byte position `i`. -/
def readU32 (b : List Nat) (i : Nat) : Nat :=
  b.getD i 0 + 256 * b.getD (i + 1) 0 + 65536 * b.getD (i + 2) 0 +
    16777216 * b.getD (i + 3) 0

theorem u16le_length (v : Nat) : (u16le v).length = 2 := rfl

theorem u32le_length (v : Nat) : (u32le v).length = 4 := rfl

/-- One entry handed to the ZIP encoder: the UTF-8 bytes of `img.filename`
and the raw content bytes obtained by base64-decoding `img.data`. -/
structure ZipEntry where
  filename : List Nat
  data : List Nat
deriving DecidableEq

instance : Inhabited ZipEntry := ⟨⟨[], []⟩⟩

/-- ZIP local file header signature `0x04034b50` (image.js line 614). -/
def LOCAL_FILE_HEADER_SIG : Nat := 0x04034b50

/-- ZIP central directory header signature `0x02014b50` (image.js line 615). -/
def CENTRAL_DIR_HEADER_SIG : Nat := 0x02014b50

/-- ZIP end-of-central-directory signature `0x06054b50` (image.js line 616). -/
def END_OF_CENTRAL_DIR_SIG : Nat := 0x06054b50

/-- The 30-byte local file header followed by the filename bytes,
exactly as written by image.js lines 633-649.  Note the CRC-32 field is
written as the constant 0 (line 642: "we'll skip proper CRC for simplicity"). -/
def localHeader (e : ZipEntry) : List Nat :=
  u32le LOCAL_FILE_HEADER_SIG ++   -- signature
  u16le 20 ++                      -- version needed
  u16le 0 ++                       -- flags
  u16le 0 ++                       -- compression (store)
  u16le 0 ++                       -- mod time
  u16le 0 ++                       -- mod date
  u32le 0 ++                       -- crc32 field, written as 0
  u32le e.data.length ++           -- compressed size
  u32le e.data.length ++           -- uncompressed size
  u16le e.filename.length ++       -- filename length
  u16le 0 ++                       -- extra field length
  e.filename

/-- Local header plus the raw stored bytes: what the loop body pushes
onto `zipParts` for one entry (image.js lines 658-659). -/
def entryChunk (e : ZipEntry) : List Nat := localHeader e ++ e.data

/-- The 46-byte central directory record followed by the filename bytes,
exactly as written by image.js lines 667-689, for an entry whose local
header was recorded at byte offset `off`. -/
def centralHeader (off : Nat) (e : ZipEntry) : List Nat :=
  u32le CENTRAL_DIR_HEADER_SIG ++  -- signature
  u16le 20 ++                      -- version made by
  u16le 20 ++                      -- version needed
  u16le 0 ++                       -- flags
  u16le 0 ++                       -- compression
  u16le 0 ++                       -- mod time
  u16le 0 ++                       -- mod date
  u32le 0 ++                       -- crc32 field, written as 0
  u32le e.data.length ++           -- compressed size
  u32le e.data.length ++           -- uncompressed size
  u16le e.filename.length ++       -- filename length
  u16le 0 ++                       -- extra field length
  u16le 0 ++                       -- comment length
  u16le 0 ++                       -- disk number start
  u16le 0 ++                       -- internal attrs
  u32le 0 ++                       -- external attrs
  u32le off ++                     -- relative offset of local header
  e.filename

/-- The 22-byte end-of-central-directory record, image.js lines 698-708. -/
def endRecord (count cdSize cdOffset : Nat) : List Nat :=
  u32le END_OF_CENTRAL_DIR_SIG ++  -- signature
  u16le 0 ++                       -- disk number
  u16le 0 ++                       -- disk with central dir
  u16le count ++                   -- entries on disk
  u16le count ++                   -- total entries
  u32le cdSize ++                  -- central dir size
  u32le cdOffset ++                -- central dir offset
  u16le 0                          -- comment length

/-- The main loop of `createZipFromBase64Images` (image.js lines 621-662):
walking the entry list with the running byte cursor `off`, it returns the
bytes pushed onto `zipParts` so far, the `centralDirectory` bookkeeping list
(recorded offset paired with the entry), and the final cursor value. -/
def encodeLoop : List ZipEntry → Nat → List Nat × List (Nat × ZipEntry) × Nat
  | [], off => ([], [], off)
  | e :: rest, off =>
      let r := encodeLoop rest (off + (localHeader e).length + e.data.length)
      (localHeader e ++ e.data ++ r.1, (off, e) :: r.2.1, r.2.2)

/-- The central directory region: one `centralHeader` per recorded entry,
in order (image.js lines 667-693). -/
def centralBytes : List (Nat × ZipEntry) → List Nat
  | [] => []
  | p :: rest => centralHeader p.1 p.2 ++ centralBytes rest

/-- The full ZIP encoder `createZipFromBase64Images` (image.js lines
606-713) after base64 decoding of each entry's payload: entries region,
then central directory, then the end record whose count is the length of
the `centralDirectory` list, whose size field is the byte length of the
central directory region (`offset - centralDirOffset` in the source) and
whose offset field is the cursor value at the end of the entries region. -/
def createZipFromBase64Images (entries : List ZipEntry) : List Nat :=
  let r := encodeLoop entries 0
  let cd := centralBytes r.2.1
  r.1 ++ cd ++ endRecord r.2.1.length cd.length r.2.2

/-! ### Derived views of the encoder -/

/-- The entries region: local header plus raw bytes for each entry, in order. -/
def entriesRegion : List ZipEntry → List Nat
  | [] => []
  | e :: rest => entryChunk e ++ entriesRegion rest

/-- The `centralDirectory` bookkeeping list built starting from cursor `off`:
each entry paired with the cursor value at which its local header begins. -/
def cdListFrom : List ZipEntry → Nat → List (Nat × ZipEntry)
  | [], _ => []
  | e :: rest, off => (off, e) :: cdListFrom rest (off + (entryChunk e).length)

/-- Number of bytes emitted before entry `i`'s local header. -/
def bytesBefore (l : List ZipEntry) (i : Nat) : Nat :=
  (entriesRegion (l.take i)).length

/-- The local-header offset recorded for entry `i` in the bookkeeping list. -/
def offsetAt (l : List ZipEntry) (i : Nat) : Nat :=
  ((cdListFrom l 0).getD i default).1

/-- Byte length of the central directory records preceding record `i`. -/
def cdBefore (l : List ZipEntry) (i : Nat) : Nat :=
  (centralBytes ((cdListFrom l 0).take i)).length

theorem localHeader_length (e : ZipEntry) :
    (localHeader e).length = 30 + e.filename.length := by
  simp [localHeader, u16le, u32le]
  try omega

theorem entryChunk_length (e : ZipEntry) :
    (entryChunk e).length = 30 + e.filename.length + e.data.length := by
  simp [entryChunk, localHeader_length]
  try omega

theorem centralHeader_length (off : Nat) (e : ZipEntry) :
    (centralHeader off e).length = 46 + e.filename.length := by
  simp [centralHeader, u16le, u32le]
  try omega

theorem endRecord_length (c s o : Nat) : (endRecord c s o).length = 22 := rfl

theorem entriesRegion_append (a b : List ZipEntry) :
    entriesRegion (a ++ b) = entriesRegion a ++ entriesRegion b := by
  induction a with
  | nil => simp [entriesRegion]
  | cons e rest ih => simp [entriesRegion, ih]

theorem centralBytes_append (a b : List (Nat × ZipEntry)) :
    centralBytes (a ++ b) = centralBytes a ++ centralBytes b := by
  induction a with
  | nil => simp [centralBytes]
  | cons p rest ih => simp [centralBytes, ih]

theorem cdListFrom_length (l : List ZipEntry) (off : Nat) :
    (cdListFrom l off).length = l.length := by
  induction l generalizing off with
  | nil => rfl
  | cons e rest ih => simp [cdListFrom, ih]

theorem cdListFrom_map_snd (l : List ZipEntry) (off : Nat) :
    (cdListFrom l off).map Prod.snd = l := by
  induction l generalizing off with
  | nil => rfl
  | cons e rest ih => simp [cdListFrom, ih]

theorem encodeLoop_eq (l : List ZipEntry) (off : Nat) :
    encodeLoop l off =
      (entriesRegion l, cdListFrom l off, off + (entriesRegion l).length) := by
  induction l generalizing off with
  | nil => simp [encodeLoop, entriesRegion, cdListFrom]
  | cons e rest ih =>
      simp only [encodeLoop, entriesRegion, cdListFrom, ih, entryChunk,
        List.length_append, List.append_assoc, Nat.add_assoc, Prod.mk.injEq]

theorem getD_append_shift (a b : List Nat) (i : Nat) :
    (a ++ b).getD (a.length + i) 0 = b.getD i 0 := by
  induction a with
  | nil => simp
  | cons x rest ih =>
      simpa [Nat.succ_add] using ih

theorem readU16_shift (a b : List Nat) (i : Nat) :
    readU16 (a ++ b) (a.length + i) = readU16 b i := by
  unfold readU16
  rw [show a.length + i + 1 = a.length + (i + 1) by omega,
    getD_append_shift, getD_append_shift]

theorem readU32_shift (a b : List Nat) (i : Nat) :
    readU32 (a ++ b) (a.length + i) = readU32 b i := by
  unfold readU32
  rw [show a.length + i + 1 = a.length + (i + 1) by omega,
    show a.length + i + 2 = a.length + (i + 2) by omega,
    show a.length + i + 3 = a.length + (i + 3) by omega,
    getD_append_shift, getD_append_shift, getD_append_shift, getD_append_shift]

theorem readU16_u16le (v : Nat) (rest : List Nat) :
    readU16 (u16le v ++ rest) 0 = v % 65536 := by
  have h : readU16 (u16le v ++ rest) 0 = v % 256 + 256 * (v / 256 % 256) := rfl
  rw [h]; omega

theorem readU32_u32le (v : Nat) (rest : List Nat) :
    readU32 (u32le v ++ rest) 0 = v % 4294967296 := by
  have h : readU32 (u32le v ++ rest) 0 =
      v % 256 + 256 * (v / 256 % 256) + 65536 * (v / 65536 % 256) +
        16777216 * (v / 16777216 % 256) := rfl
  rw [h]; omega

/-- Structural form of the encoder's output: entries region, central
directory region, end record. -/
theorem createZip_eq (l : List ZipEntry) :
    createZipFromBase64Images l =
      entriesRegion l ++ centralBytes (cdListFrom l 0) ++
        endRecord l.length (centralBytes (cdListFrom l 0)).length
          (entriesRegion l).length := by
  unfold createZipFromBase64Images
  rw [encodeLoop_eq]
  simp [cdListFrom_length]

theorem bytesBefore_zero (l : List ZipEntry) : bytesBefore l 0 = 0 := rfl

theorem bytesBefore_cons_succ (e : ZipEntry) (rest : List ZipEntry) (j : Nat) :
    bytesBefore (e :: rest) (j + 1) = (entryChunk e).length + bytesBefore rest j := by
  simp [bytesBefore, entriesRegion, List.take_succ_cons]

theorem bytesBefore_succ (l : List ZipEntry) (i : Nat) (h : i < l.length) :
    bytesBefore l (i + 1) =
      bytesBefore l i + (entryChunk (l.getD i default)).length := by
  induction l generalizing i with
  | nil => simp at h
  | cons e rest ih =>
      cases i with
      | zero => simp [bytesBefore_cons_succ, bytesBefore_zero]
      | succ j =>
          have hj : j < rest.length := by simpa using h
          rw [bytesBefore_cons_succ, bytesBefore_cons_succ, ih j hj,
            List.getD_cons_succ]
          omega

theorem bytesBefore_mono (l : List ZipEntry) {i j : Nat} (h : i ≤ j) :
    bytesBefore l i ≤ bytesBefore l j := by
  induction h with
  | refl => exact Nat.le_refl _
  | step ih =>
      rename_i k hk
      refine Nat.le_trans hk ?_
      by_cases hlt : k < l.length
      · rw [bytesBefore_succ l k hlt]
        exact Nat.le_add_right _ _
      · unfold bytesBefore
        rw [List.take_of_length_le (by omega), List.take_of_length_le (by omega)]

theorem bytesBefore_le_region (l : List ZipEntry) (i : Nat) :
    bytesBefore l i ≤ (entriesRegion l).length := by
  conv_rhs => rw [← List.take_append_drop i l]
  rw [entriesRegion_append, List.length_append]
  exact Nat.le_add_right _ _

theorem bytesBefore_strict (l : List ZipEntry) {i j : Nat} (hij : i < j)
    (hj : j ≤ l.length) : bytesBefore l i < bytesBefore l j := by
  have hi : i < l.length := Nat.lt_of_lt_of_le hij hj
  have h1 : bytesBefore l i < bytesBefore l (i + 1) := by
    rw [bytesBefore_succ l i hi]
    have := entryChunk_length (l.getD i default)
    omega
  exact Nat.lt_of_lt_of_le h1 (bytesBefore_mono l hij)

theorem cdListFrom_getD (l : List ZipEntry) (off i : Nat) (h : i < l.length) :
    (cdListFrom l off).getD i default =
      (off + bytesBefore l i, l.getD i default) := by
  induction l generalizing off i with
  | nil => simp at h
  | cons e rest ih =>
      cases i with
      | zero => simp [cdListFrom, bytesBefore_zero]
      | succ j =>
          have hj : j < rest.length := by simpa using h
          simp only [cdListFrom, List.getD_cons_succ, List.getD_cons_succ]
          rw [ih (off + (entryChunk e).length) j hj, bytesBefore_cons_succ]
          simp [Nat.add_assoc]

/-- The offset recorded for entry `i` is exactly the number of bytes
emitted before its local header. -/
theorem offsetAt_eq (l : List ZipEntry) (i : Nat) (h : i < l.length) :
    offsetAt l i = bytesBefore l i := by
  unfold offsetAt
  rw [cdListFrom_getD l 0 i h]
  simp

/-! ### Reading fields back out of the encoded buffer -/

/-- The first 42 bytes of a central directory record, up to but not
including the local-header offset field. -/
def cdHead (e : ZipEntry) : List Nat :=
  u32le CENTRAL_DIR_HEADER_SIG ++ u16le 20 ++ u16le 20 ++ u16le 0 ++ u16le 0 ++
  u16le 0 ++ u16le 0 ++ u32le 0 ++ u32le e.data.length ++ u32le e.data.length ++
  u16le e.filename.length ++ u16le 0 ++ u16le 0 ++ u16le 0 ++ u16le 0 ++ u32le 0

theorem cdHead_length (e : ZipEntry) : (cdHead e).length = 42 := by
  simp [cdHead, u16le, u32le]

theorem centralHeader_split (off : Nat) (e : ZipEntry) :
    centralHeader off e = cdHead e ++ (u32le off ++ e.filename) := by
  simp [centralHeader, cdHead, List.append_assoc]

/-- The offset field of a central directory record sits at byte 42 and
holds the recorded offset reduced modulo 2^32. -/
theorem readU32_centralHeader (off : Nat) (e : ZipEntry) (rest : List Nat) :
    readU32 (centralHeader off e ++ rest) 42 = off % 4294967296 := by
  rw [centralHeader_split, List.append_assoc]
  rw [show (42 : Nat) = (cdHead e).length + 0 by rw [cdHead_length]]
  rw [readU32_shift, List.append_assoc]
  exact readU32_u32le off _

/-- The first 22 bytes of a local file header, up to but not including the
uncompressed-size field. -/
def lhHead (e : ZipEntry) : List Nat :=
  u32le LOCAL_FILE_HEADER_SIG ++ u16le 20 ++ u16le 0 ++ u16le 0 ++ u16le 0 ++
  u16le 0 ++ u32le 0 ++ u32le e.data.length

theorem lhHead_length (e : ZipEntry) : (lhHead e).length = 22 := by
  simp [lhHead, u16le, u32le]

theorem localHeader_split (e : ZipEntry) :
    localHeader e =
      lhHead e ++ (u32le e.data.length ++
        (u16le e.filename.length ++ (u16le 0 ++ e.filename))) := by
  simp [localHeader, lhHead, List.append_assoc]

/-- The uncompressed-size field of a local file header sits at byte 22 and
holds the content length reduced modulo 2^32. -/
theorem readU32_localHeader_usize (e : ZipEntry) (rest : List Nat) :
    readU32 (localHeader e ++ rest) 22 = e.data.length % 4294967296 := by
  rw [localHeader_split, List.append_assoc]
  rw [show (22 : Nat) = (lhHead e).length + 0 by rw [lhHead_length]]
  rw [readU32_shift, List.append_assoc]
  exact readU32_u32le _ _

theorem readU16_endRecord_8 (c s o : Nat) :
    readU16 (endRecord c s o) 8 = c % 65536 := by
  have h : readU16 (endRecord c s o) 8 = c % 256 + 256 * (c / 256 % 256) := rfl
  rw [h]; omega

theorem readU16_endRecord_10 (c s o : Nat) :
    readU16 (endRecord c s o) 10 = c % 65536 := by
  have h : readU16 (endRecord c s o) 10 = c % 256 + 256 * (c / 256 % 256) := rfl
  rw [h]; omega

theorem readU32_endRecord_12 (c s o : Nat) :
    readU32 (endRecord c s o) 12 = s % 4294967296 := by
  have h : readU32 (endRecord c s o) 12 =
      s % 256 + 256 * (s / 256 % 256) + 65536 * (s / 65536 % 256) +
        16777216 * (s / 16777216 % 256) := rfl
  rw [h]; omega

theorem readU32_endRecord_16 (c s o : Nat) :
    readU32 (endRecord c s o) 16 = o % 4294967296 := by
  have h : readU32 (endRecord c s o) 16 =
      o % 256 + 256 * (o / 256 % 256) + 65536 * (o / 65536 % 256) +
        16777216 * (o / 16777216 % 256) := rfl
  rw [h]; omega

/-- Decomposition of the central directory region around record `i`. -/
theorem centralBytes_decomp (l : List ZipEntry) (i : Nat) (h : i < l.length) :
    centralBytes (cdListFrom l 0) =
      centralBytes ((cdListFrom l 0).take i) ++
        (centralHeader (bytesBefore l i) (l.getD i default) ++
          centralBytes ((cdListFrom l 0).drop (i + 1))) := by
  have hlen : i < (cdListFrom l 0).length := by
    rw [cdListFrom_length]; exact h
  have hx : (cdListFrom l 0)[i] = (bytesBefore l i, l.getD i default) := by
    rw [← List.getD_eq_getElem _ default hlen, cdListFrom_getD l 0 i h]
    simp
  conv_lhs => rw [← List.take_append_drop i (cdListFrom l 0)]
  rw [centralBytes_append, List.drop_eq_getElem_cons hlen, hx]
  rfl

/-- Decomposition of the entries region around entry `i`'s chunk. -/
theorem entriesRegion_decomp (l : List ZipEntry) (i : Nat) (h : i < l.length) :
    entriesRegion l =
      entriesRegion (l.take i) ++
        (entryChunk (l.getD i default) ++ entriesRegion (l.drop (i + 1))) := by
  conv_lhs => rw [← List.take_append_drop i l]
  rw [entriesRegion_append, List.drop_eq_getElem_cons h,
    ← List.getD_eq_getElem l default h]
  rfl

/-- Reading the offset field of central record `i` out of the full buffer
returns the recorded running total, reduced modulo 2^32. -/
theorem readU32_offset_field (l : List ZipEntry) (i : Nat) (h : i < l.length) :
    readU32 (createZipFromBase64Images l)
      ((entriesRegion l).length + (cdBefore l i + 42)) =
      bytesBefore l i % 4294967296 := by
  rw [createZip_eq, List.append_assoc, readU32_shift,
    centralBytes_decomp l i h]
  unfold cdBefore
  rw [List.append_assoc, readU32_shift, List.append_assoc]
  exact readU32_centralHeader _ _ _

/-- Any entry chunk starts with the 4 local-header signature bytes. -/
theorem take_four_entryChunk (e : ZipEntry) (rest : List Nat) :
    (entryChunk e ++ rest).take 4 = [80, 75, 3, 4] := by
  simp only [entryChunk, localHeader, List.append_assoc]
  rw [show (4 : Nat) = (u32le LOCAL_FILE_HEADER_SIG).length from rfl,
    List.take_left]
  rfl

/-- Seeking to `bytesBefore l i` in the produced buffer lands on entry `i`'s
local header signature bytes. -/
theorem drop_createZip_signature (l : List ZipEntry) (i : Nat)
    (h : i < l.length) :
    ((createZipFromBase64Images l).drop (bytesBefore l i)).take 4 =
      [80, 75, 3, 4] := by
  rw [createZip_eq, List.append_assoc,
    List.drop_append_of_le_length (bytesBefore_le_region l i),
    entriesRegion_decomp l i h]
  have hb : bytesBefore l i = (entriesRegion (l.take i)).length := rfl
  rw [hb, List.drop_left, List.append_assoc]
  exact take_four_entryChunk _ _

/-- Claim C2: for every list of entries, the recorded local-header offsets equal
the running byte totals, are strictly increasing in entry order, and the
32-bit offset field of each index record, read back from the produced
buffer and used as a byte position, lands exactly on that entry's local
header signature bytes. -/
theorem offsets_correct (l : List ZipEntry) (i : Nat) (hi : i < l.length)
    (h32 : (entriesRegion l).length < 4294967296) :
    offsetAt l i = bytesBefore l i ∧
    (∀ j, j < i → offsetAt l j < offsetAt l i) ∧
    readU32 (createZipFromBase64Images l)
        ((entriesRegion l).length + (cdBefore l i + 42)) = offsetAt l i ∧
    ((createZipFromBase64Images l).drop
        (readU32 (createZipFromBase64Images l)
          ((entriesRegion l).length + (cdBefore l i + 42)))).take 4 =
      [80, 75, 3, 4] := by
  have ha := offsetAt_eq l i hi
  have hlt : bytesBefore l i < 4294967296 :=
    Nat.lt_of_le_of_lt (bytesBefore_le_region l i) h32
  have hread : readU32 (createZipFromBase64Images l)
      ((entriesRegion l).length + (cdBefore l i + 42)) = bytesBefore l i := by
    rw [readU32_offset_field l i hi, Nat.mod_eq_of_lt hlt]
  refine ⟨ha, ?_, ?_, ?_⟩
  · intro j hj
    rw [offsetAt_eq l j (Nat.lt_trans hj hi), ha]
    exact bytesBefore_strict l hj (Nat.le_of_lt hi)
  · rw [hread, ha]
  · rw [hread]
    exact drop_createZip_signature l i hi

/-- Concrete instantiation of `offsets_correct` on a two-entry list. -/
theorem offsets_correct_witness :
    offsetAt [⟨[97], [10, 20]⟩, ⟨[98, 99], [30]⟩] 1 =
        bytesBefore [⟨[97], [10, 20]⟩, ⟨[98, 99], [30]⟩] 1 ∧
      offsetAt [⟨[97], [10, 20]⟩, ⟨[98, 99], [30]⟩] 0 <
        offsetAt [⟨[97], [10, 20]⟩, ⟨[98, 99], [30]⟩] 1 :=
  ⟨(offsets_correct [⟨[97], [10, 20]⟩, ⟨[98, 99], [30]⟩] 1 (by decide)
      (by decide)).1,
   (offsets_correct [⟨[97], [10, 20]⟩, ⟨[98, 99], [30]⟩] 1 (by decide)
      (by decide)).2.1 0 (by decide)⟩

/-- Claim C3: the trailer record carries both entry-count fields equal to the
number of entries, an index-start offset equal to the byte position
immediately following the last entry's raw content (the length of the
entries region), and an index-length field equal to the total size of the
index records (final cursor minus index start). -/
theorem trailer_correct (l : List ZipEntry)
    (hc : l.length < 65536)
    (hA : (entriesRegion l).length < 4294967296)
    (hB : (centralBytes (cdListFrom l 0)).length < 4294967296) :
    (createZipFromBase64Images l).length =
      (entriesRegion l).length + (centralBytes (cdListFrom l 0)).length + 22 ∧
    readU16 (createZipFromBase64Images l)
        ((entriesRegion l).length + (centralBytes (cdListFrom l 0)).length + 8) =
      l.length ∧
    readU16 (createZipFromBase64Images l)
        ((entriesRegion l).length + (centralBytes (cdListFrom l 0)).length + 10) =
      l.length ∧
    readU32 (createZipFromBase64Images l)
        ((entriesRegion l).length + (centralBytes (cdListFrom l 0)).length + 12) =
      (centralBytes (cdListFrom l 0)).length ∧
    readU32 (createZipFromBase64Images l)
        ((entriesRegion l).length + (centralBytes (cdListFrom l 0)).length + 16) =
      (entriesRegion l).length := by
  have hsplit : ∀ k : Nat,
      (entriesRegion l).length + (centralBytes (cdListFrom l 0)).length + k =
        (entriesRegion l ++ centralBytes (cdListFrom l 0)).length + k := by
    intro k; simp
  refine ⟨?_, ?_, ?_, ?_, ?_⟩
  · rw [createZip_eq]
    simp [endRecord, u16le, u32le]
    omega
  · rw [createZip_eq, hsplit, readU16_shift, readU16_endRecord_8,
      Nat.mod_eq_of_lt hc]
  · rw [createZip_eq, hsplit, readU16_shift, readU16_endRecord_10,
      Nat.mod_eq_of_lt hc]
  · rw [createZip_eq, hsplit, readU32_shift, readU32_endRecord_12,
      Nat.mod_eq_of_lt hB]
  · rw [createZip_eq, hsplit, readU32_shift, readU32_endRecord_16,
      Nat.mod_eq_of_lt hA]

/-- Concrete instantiation of `trailer_correct` on a two-entry list. -/
theorem trailer_correct_witness :
    readU16 (createZipFromBase64Images [⟨[97], [10, 20]⟩, ⟨[98, 99], [30]⟩])
        ((entriesRegion [⟨[97], [10, 20]⟩, ⟨[98, 99], [30]⟩]).length +
          (centralBytes (cdListFrom [⟨[97], [10, 20]⟩, ⟨[98, 99], [30]⟩] 0)).length
            + 8) = 2 :=
  (trailer_correct [⟨[97], [10, 20]⟩, ⟨[98, 99], [30]⟩] (by decide) (by decide)
    (by decide)).2.1

/-- Claim C10: on an empty entry list the encoder returns a buffer of exactly 22
bytes: the end-of-central-directory record with its signature, zero entry
counts, zero index length, zero index offset and zero comment length. -/
theorem empty_archive :
    createZipFromBase64Images [] =
      [80, 75, 5, 6, 0, 0, 0, 0, 0, 0, 0, 0, 0, 0, 0, 0, 0, 0, 0, 0, 0, 0] ∧
    (createZipFromBase64Images []).length = 22 := by decide

/-! ### The standard CRC-32 checksum -/

/-- One shift step of the reflected CRC-32 computation with the standard
polynomial `0xEDB88320`. -/
def crcStep (c : Nat) : Nat :=
  if c % 2 = 1 then Nat.xor (c / 2) 0xEDB88320 else c / 2

/-- Fold one input byte into the running CRC state. -/
def crcByte (c b : Nat) : Nat :=
  crcStep (crcStep (crcStep (crcStep (crcStep (crcStep (crcStep (crcStep
    (Nat.xor c (b % 256)))))))))

/-- Modelled from the spec: the "standard polynomial checksum" (CRC-32,
polynomial `0xEDB88320`, initial value and final xor `0xFFFFFFFF`) of a
byte sequence; not implemented anywhere in the repository, which is the
content of claim C1. -/
def crc32 (bytes : List Nat) : Nat :=
  Nat.xor (bytes.foldl crcByte 0xFFFFFFFF) 0xFFFFFFFF

/-- Claim C1 is violated by the code: for the entry ("x.txt", "hello") the
checksum fields written in the local header (byte 14) and in the index
record (byte 40 + 16 = 56) are both 0, while the standard CRC-32 of the
content bytes is `0x3610a686 ≠ 0`. -/
theorem crc_fields_zero_not_crc32 :
    crc32 [104, 101, 108, 108, 111] = 0x3610a686 ∧
    readU32 (createZipFromBase64Images
        [⟨[120, 46, 116, 120, 116], [104, 101, 108, 108, 111]⟩]) 14 = 0 ∧
    readU32 (createZipFromBase64Images
        [⟨[120, 46, 116, 120, 116], [104, 101, 108, 108, 111]⟩]) 56 = 0 ∧
    readU32 (createZipFromBase64Images
        [⟨[120, 46, 116, 120, 116], [104, 101, 108, 108, 111]⟩]) 14 ≠
      crc32 [104, 101, 108, 108, 111] := by decide

/-! ### The batch orchestrator `convertBulkWithProgress` -/

/-- The per-item status values used by the file list UI
(image.js lines 512, 532, 555, 559). -/
inductive FileStatus where
  | pending
  | converting
  | done
  | error
deriving DecidableEq

instance : Inhabited FileStatus := ⟨.pending⟩

/-- `updateFileStatus(i, s)`: set the status of item `i`. -/
def updateFileStatus (sts : List FileStatus) (i : Nat) (s : FileStatus) :
    List FileStatus :=
  sts.set i s

/-- The body of the sequential conversion loop (image.js lines 528-562),
over an abstract Conversion Gateway `gw` (the `/api/image/convert-single`
call): state is `(convertedImages, errorCount, statuses)`; each iteration
marks item `i` converting, calls the Gateway, pushes the result and marks
the item done on success, or increments `errorCount` and marks the item
failed on error, then proceeds with item `i + 1`. -/
def bulkGo {α : Type} (gw : α → Except String ZipEntry) :
    List α → Nat → List ZipEntry × Nat × List FileStatus →
      List ZipEntry × Nat × List FileStatus
  | [], _, st => st
  | f :: rest, i, (res, ec, sts) =>
      let sts1 := updateFileStatus sts i .converting
      match gw f with
      | .ok r => bulkGo gw rest (i + 1) (res ++ [r], ec, updateFileStatus sts1 i .done)
      | .error _ => bulkGo gw rest (i + 1) (res, ec + 1, updateFileStatus sts1 i .error)

/-- `convertBulkWithProgress` (image.js lines 507-562): statuses start all
pending, the loop starts at item 0 with no results and no errors. -/
def convertBulkWithProgress {α : Type} (gw : α → Except String ZipEntry)
    (files : List α) : List ZipEntry × Nat × List FileStatus :=
  bulkGo gw files 0 ([], 0, files.map (fun _ => .pending))

/-- The final status an item ends in, determined by its own Gateway
outcome alone. -/
def statusOf {α : Type} (gw : α → Except String ZipEntry) (f : α) :
    FileStatus :=
  match gw f with
  | .ok _ => .done
  | .error _ => .error

/-- Number of items the Gateway fails on. -/
def errCount {α : Type} (gw : α → Except String ZipEntry) (files : List α) :
    Nat :=
  files.countP (fun f => match gw f with | .ok _ => false | .error _ => true)

theorem take_succ_set (sts : List FileStatus) (i : Nat) (a : FileStatus)
    (h : i < sts.length) :
    (sts.set i a).take (i + 1) = sts.take i ++ [a] := by
  rw [List.set_eq_take_cons_drop a h]
  have hlen : (sts.take i).length = i := by
    rw [List.length_take]; omega
  rw [show i + 1 = (sts.take i).length + 1 by omega, List.take_append]
  simp

/-- Characterization of the sequential loop: started at index `i` with a
status list covering the remaining items, it appends exactly the Gateway
successes in order, adds one to the error count per Gateway failure, and
overwrites the statuses of items `i, i+1, ...` with their own final
status. -/
theorem bulkGo_spec {α : Type} (gw : α → Except String ZipEntry) :
    ∀ (files : List α) (i : Nat) (res : List ZipEntry) (ec : Nat)
      (sts : List FileStatus), sts.length = i + files.length →
      bulkGo gw files i (res, ec, sts) =
        (res ++ files.filterMap (fun f => (gw f).toOption),
         ec + errCount gw files,
         sts.take i ++ files.map (statusOf gw)) := by
  intro files
  induction files with
  | nil =>
      intro i res ec sts hlen
      simp only [List.length_nil, Nat.add_zero] at hlen
      simp only [bulkGo, List.filterMap_nil, List.append_nil, errCount,
        List.countP_nil, Nat.add_zero, List.map_nil]
      rw [List.take_of_length_le (by omega)]
  | cons f rest ih =>
      intro i res ec sts hlen
      simp only [List.length_cons] at hlen
      have hi : i < sts.length := by omega
      cases hgw : gw f with
      | ok r =>
          simp only [bulkGo, hgw, updateFileStatus, List.set_set]
          rw [ih (i + 1) (res ++ [r]) ec (sts.set i .done)
            (by rw [List.length_set]; omega)]
          rw [take_succ_set sts i .done hi]
          simp [List.filterMap_cons, hgw, Except.toOption, errCount,
            List.countP_cons, statusOf]
      | error msg =>
          simp only [bulkGo, hgw, updateFileStatus, List.set_set]
          rw [ih (i + 1) res (ec + 1) (sts.set i .error)
            (by rw [List.length_set]; omega)]
          rw [take_succ_set sts i .error hi]
          simp [List.filterMap_cons, hgw, Except.toOption, errCount,
            List.countP_cons, statusOf]
          omega

/-- The whole run: results are exactly the Gateway successes in input
order, the error count is the number of failures, and the final status
list is each item's own final status. -/
theorem convertBulkWithProgress_eq {α : Type} (gw : α → Except String ZipEntry)
    (files : List α) :
    convertBulkWithProgress gw files =
      (files.filterMap (fun f => (gw f).toOption),
       errCount gw files,
       files.map (statusOf gw)) := by
  unfold convertBulkWithProgress
  rw [bulkGo_spec gw files 0 [] 0 _ (by simp)]
  simp

theorem filterMap_all_ok {α : Type} (gw : α → Except String ZipEntry)
    (conv : α → ZipEntry) (h : ∀ f, gw f = .ok (conv f)) (files : List α) :
    files.filterMap (fun f => (gw f).toOption) = files.map conv := by
  induction files with
  | nil => rfl
  | cons f rest ih =>
      have ht : (gw f).toOption = some (conv f) := by rw [h f]; rfl
      simp only [List.filterMap_cons, ht, List.map_cons, ih]

theorem length_filterMap_add_errCount {α : Type}
    (gw : α → Except String ZipEntry) (files : List α) :
    (files.filterMap (fun f => (gw f).toOption)).length + errCount gw files =
      files.length := by
  induction files with
  | nil => rfl
  | cons f rest ih =>
      cases hgw : gw f with
      | ok r =>
          have h1 : (f :: rest).filterMap (fun f => (gw f).toOption) =
              r :: rest.filterMap (fun f => (gw f).toOption) := by
            simp [List.filterMap_cons, hgw, Except.toOption]
          have h2 : errCount gw (f :: rest) = errCount gw rest := by
            simp [errCount, List.countP_cons, hgw]
          rw [h1, h2, List.length_cons, List.length_cons]
          omega
      | error msg =>
          have h1 : (f :: rest).filterMap (fun f => (gw f).toOption) =
              rest.filterMap (fun f => (gw f).toOption) := by
            simp [List.filterMap_cons, hgw, Except.toOption]
          have h2 : errCount gw (f :: rest) = errCount gw rest + 1 := by
            simp [errCount, List.countP_cons, hgw]
          rw [h1, h2, List.length_cons]
          omega

/-- Claim C4: the results sequence equals the Gateway outputs of exactly the
succeeded items in original input order; the central directory bookkeeping
list (hence the archive entries) keeps that exact order; and when the
Gateway succeeds on every item, the results are the per-item conversions
in exact input order. -/
theorem results_order {α : Type} (gw : α → Except String ZipEntry)
    (files : List α) :
    (convertBulkWithProgress gw files).1 =
      files.filterMap (fun f => (gw f).toOption) ∧
    ((encodeLoop (convertBulkWithProgress gw files).1 0).2.1).map Prod.snd =
      (convertBulkWithProgress gw files).1 ∧
    ∀ conv : α → ZipEntry, (∀ f, gw f = .ok (conv f)) →
      (convertBulkWithProgress gw files).1 = files.map conv := by
  rw [convertBulkWithProgress_eq]
  refine ⟨rfl, ?_, ?_⟩
  · rw [encodeLoop_eq]
    exact cdListFrom_map_snd _ 0
  · intro conv hconv
    exact filterMap_all_ok gw conv hconv files

/-- Concrete instantiation of `results_order`: an all-success Gateway on a
three-item list yields the three conversions in input order. -/
theorem results_order_witness :
    (convertBulkWithProgress
        (fun n : Nat => Except.ok (⟨[110], [n % 256]⟩ : ZipEntry))
        [1, 2, 3]).1 =
      [1, 2, 3].map (fun n : Nat => (⟨[110], [n % 256]⟩ : ZipEntry)) :=
  (results_order (fun n : Nat => Except.ok (⟨[110], [n % 256]⟩ : ZipEntry))
      [1, 2, 3]).2.2
    (fun n : Nat => (⟨[110], [n % 256]⟩ : ZipEntry)) (fun _ => rfl)

/-- Claim C5: after the run, collected results plus failed count equals the
number of inputs, every item's final status is done or failed (no item is
left pending or converting), and each item's final status is determined by
its own Gateway outcome alone (a failure on item `i` marks only item `i`
failed and the loop continues through the whole list). -/
theorem run_accounting {α : Type} (gw : α → Except String ZipEntry)
    (files : List α) :
    (convertBulkWithProgress gw files).1.length +
        (convertBulkWithProgress gw files).2.1 = files.length ∧
    ((convertBulkWithProgress gw files).2.2.all
        (fun s => s == .done || s == .error)) = true ∧
    (convertBulkWithProgress gw files).2.2 = files.map (statusOf gw) := by
  rw [convertBulkWithProgress_eq]
  refine ⟨length_filterMap_add_errCount gw files, ?_, rfl⟩
  show (files.map (statusOf gw)).all (fun s => s == .done || s == .error) = true
  rw [List.all_eq_true]
  intro s hs
  rw [List.mem_map] at hs
  obtain ⟨f, hf, rfl⟩ := hs
  cases hgw : gw f <;> simp [statusOf, hgw]

/-- The post-run dispatch (image.js lines 565-600): with at least one
converted image the encoder is invoked and a download plus success summary
is offered; with zero converted images the encoder is not invoked and the
caller is told nothing was converted. -/
inductive BulkOutcome where
  | zipReady : List Nat → Nat → Nat → BulkOutcome
  | nothingConverted : BulkOutcome
deriving DecidableEq

/-- Run the orchestrator, then branch on `convertedImages.length > 0`
exactly as image.js line 565 does. -/
def bulkOutcome {α : Type} (gw : α → Except String ZipEntry)
    (files : List α) : BulkOutcome :=
  let r := convertBulkWithProgress gw files
  if 0 < r.1.length then
    .zipReady (createZipFromBase64Images r.1) r.1.length r.2.1
  else
    .nothingConverted

/-- Claim C6: when the Gateway fails on every item, the encoder is never invoked
(the outcome is not `zipReady`, whose payload is the encoder's output) and
the caller receives the zero-converted outcome. -/
theorem total_failure_guard {α : Type} (gw : α → Except String ZipEntry)
    (files : List α) (h : ∀ f ∈ files, (gw f).toOption = none) :
    bulkOutcome gw files = .nothingConverted := by
  unfold bulkOutcome
  rw [convertBulkWithProgress_eq]
  simp [List.filterMap_eq_nil_iff.mpr h]

/-- Concrete instantiation of `total_failure_guard`: an always-failing
Gateway on a three-item list produces the zero-converted outcome. -/
theorem total_failure_guard_witness :
    bulkOutcome (fun _ : Nat => (Except.error (default : String) :
        Except String ZipEntry)) [1, 2, 3] = .nothingConverted :=
  total_failure_guard _ [1, 2, 3] (fun _ _ => rfl)

/-- Claim C8: the encoder's output depends only on the ordered (name, bytes)
input: two entry lists that agree entrywise on filename bytes and content
bytes encode to byte-identical buffers; in particular encoding the same
list twice is byte-identical. -/
theorem encoder_deterministic (l1 l2 : List ZipEntry)
    (h : l1.map (fun e => (e.filename, e.data)) =
      l2.map (fun e => (e.filename, e.data))) :
    createZipFromBase64Images l1 = createZipFromBase64Images l2 := by
  have hl : l1 = l2 := by
    induction l1 generalizing l2 with
    | nil => cases l2 with
      | nil => rfl
      | cons e2 rest2 => simp at h
    | cons e rest ih =>
        cases l2 with
        | nil => simp at h
        | cons e2 rest2 =>
            simp only [List.map_cons, List.cons.injEq, Prod.mk.injEq] at h
            obtain ⟨⟨h1, h2⟩, h3⟩ := h
            have he : e = e2 := by
              cases e; cases e2
              simp_all
            rw [he, ih rest2 h3]
  rw [hl]

/-- Concrete instantiation of `encoder_deterministic` on a one-entry list. -/
theorem encoder_deterministic_witness :
    createZipFromBase64Images [⟨[97], [1, 2]⟩] =
      createZipFromBase64Images [⟨[97], [1, 2]⟩] :=
  encoder_deterministic [⟨[97], [1, 2]⟩] [⟨[97], [1, 2]⟩] rfl

/-! ### A standards-compliant archive reader, modelled from the spec -/

/-- Modelled from the spec: a standards-compliant reader walks the trailing
index region record by record (section 4.2 layout: signature, method at
byte 10, sizes at 20/24, name length at 28, extra/comment lengths at 30/32,
local-header offset at 42, name bytes at 46), follows each recorded offset
to the local header, checks its signature, and extracts the entry's name,
stored content and compression method.  No such reader exists in the
repository; this definition follows the spec's record layouts word for
word to state the round-trip claim. -/
def specReadEntries (buf : List Nat) :
    Nat → Nat → Option (List (List Nat × List Nat × Nat))
  | 0, _ => some []
  | n + 1, p =>
      if readU32 buf p = CENTRAL_DIR_HEADER_SIG then
        let method := readU16 buf (p + 10)
        let size := readU32 buf (p + 20)
        let nlen := readU16 buf (p + 28)
        let elen := readU16 buf (p + 30)
        let clen := readU16 buf (p + 32)
        let off := readU32 buf (p + 42)
        let name := (buf.drop (p + 46)).take nlen
        if readU32 buf off = LOCAL_FILE_HEADER_SIG then
          let lnlen := readU16 buf (off + 26)
          let lelen := readU16 buf (off + 28)
          let content := (buf.drop (off + 30 + lnlen + lelen)).take size
          match specReadEntries buf n (p + 46 + nlen + elen + clen) with
          | some rest => some ((name, content, method) :: rest)
          | none => none
        else none
      else none

/-- Modelled from the spec: whole-archive parse; locate the 22-byte trailer
at the end of the buffer, check its signature, then read as many index
records as the trailer's entry count starting at the trailer's recorded
index offset. -/
def specParseArchive (buf : List Nat) :
    Option (List (List Nat × List Nat × Nat)) :=
  if 22 ≤ buf.length ∧ readU32 buf (buf.length - 22) = END_OF_CENTRAL_DIR_SIG then
    specReadEntries buf (readU16 buf (buf.length - 22 + 8))
      (readU32 buf (buf.length - 22 + 16))
  else none

set_option maxRecDepth 400000 in
/-- Claim C7: encoding [("x.txt", "hello"), ("y.txt", "world!")] and parsing the
result with the spec-modelled reader yields exactly the two entries with
their names, contents and the store method (0). -/
theorem roundtrip_two_entries :
    specParseArchive (createZipFromBase64Images
        [⟨[120, 46, 116, 120, 116], [104, 101, 108, 108, 111]⟩,
         ⟨[121, 46, 116, 120, 116], [119, 111, 114, 108, 100, 33]⟩]) =
      some [([120, 46, 116, 120, 116], [104, 101, 108, 108, 111], 0),
            ([121, 46, 116, 120, 116], [119, 111, 114, 108, 100, 33], 0)] := by
  decide

/-! ### Oversized entries: the 32-bit size fields wrap silently (C9) -/

theorem createZip_single (e : ZipEntry) :
    createZipFromBase64Images [e] =
      localHeader e ++ (e.data ++ (centralHeader 0 e ++
        endRecord 1 (centralHeader 0 e).length (entryChunk e).length)) := by
  rw [createZip_eq]
  simp [entriesRegion, centralBytes, cdListFrom, entryChunk,
    List.append_assoc]

theorem readU32_createZip_usize (e : ZipEntry) :
    readU32 (createZipFromBase64Images [e]) 22 =
      e.data.length % 4294967296 := by
  rw [createZip_single]
  exact readU32_localHeader_usize e _

theorem createZip_single_length (e : ZipEntry) :
    (createZipFromBase64Images [e]).length =
      98 + 2 * e.filename.length + e.data.length := by
  rw [createZip_single]
  simp only [List.length_append, localHeader_length, centralHeader_length,
    entryChunk_length, endRecord_length]
  omega

/-- Claim C9 is violated by the code: an entry whose content size exceeds the
32-bit field's range is not rejected; the encoder still returns a complete
buffer in which the uncompressed-size field silently wraps modulo 2^32
(here: content of 2^32 bytes, written size field 0). -/
theorem size_field_wraps :
    4294967295 < (List.replicate 4294967296 (0 : Nat)).length ∧
    readU32 (createZipFromBase64Images
        [⟨[97], List.replicate 4294967296 (0 : Nat)⟩]) 22 = 0 ∧
    (createZipFromBase64Images
        [⟨[97], List.replicate 4294967296 (0 : Nat)⟩]).length =
      4294967296 + 100 := by
  have hd : (ZipEntry.mk [97] (List.replicate 4294967296 (0 : Nat))).data
      = List.replicate 4294967296 (0 : Nat) := rfl
  have hf : (ZipEntry.mk [97] (List.replicate 4294967296 (0 : Nat))).filename
      = [97] := rfl
  refine ⟨by rw [List.length_replicate]; omega, ?_, ?_⟩
  · have h1 := readU32_createZip_usize
      (ZipEntry.mk [97] (List.replicate 4294967296 (0 : Nat)))
    rw [hd] at h1
    rw [h1, List.length_replicate]
  · have h := createZip_single_length
      (ZipEntry.mk [97] (List.replicate 4294967296 (0 : Nat)))
    rw [hd, hf] at h
    rw [h, List.length_replicate, List.length_cons, List.length_nil]

end MediaToolkit
